import Mathlib

/-!
# Verification of `scripts/bundle-a2ui.ts`

A shallow embedding of the content-fingerprint-gated build orchestrator in
`src/scripts/bundle-a2ui.ts`, together with theorems settling the frozen
claims about it.

Modelling conventions:

* JavaScript strings that reach the hash or the cache file are modelled as
  their UTF-8 byte sequences, `List Nat` with every element a byte value.
  All literal strings in the script are ASCII, so `asciiBytes` (code points)
  coincides with UTF-8 for them.
* Filesystem paths are modelled as lists of name segments (`List (List Nat)`),
  relative to `repoRoot`.  The script only enumerates paths under `repoRoot`
  and compares them by their normalised string forms, which all share the
  `repoRoot` prefix, so comparing repo-relative forms yields the same order.
* `String.prototype.localeCompare` is locale-sensitive ICU collation: it
  depends on the host locale, orders mixed-case ASCII differently from code
  points, and compares distinct strings equal when they differ only in
  ignorable characters (in Node, `"a\u0001".localeCompare("a") === 0`).  The
  sort of line 51 is therefore modelled with the process's collation as an
  explicit parameter (`sortFilesBy`); `cmpBytes` (code-point comparison) is
  one collation instance, used for concrete byte-level evaluation, and
  `tieCmp` is another — a collation with a completely ignorable character —
  used to exhibit the order- and locale-dependence this creates.
* `node:crypto`'s `createHash("sha256")` is modelled by an executable
  implementation of FIPS 180-4 SHA-256 (`sha256hex`), with the incremental
  `update` calls modelled by accumulating the concatenation of the fed bytes.
* The filesystem is a snapshot tree (`FSEntry`), immutable during a run,
  matching the single-run, no-concurrency assumption of the script.
-/

namespace A2UI

/-- Bytes of an ASCII string: the code point of each character.  Used only
for ASCII literals, where code points and UTF-8 bytes agree. -/
def asciiBytes (s : String) : List Nat :=
  s.data.map Char.toNat

/-! ## SHA-256 (model of Node's `createHash("sha256")`) -/

/-- Truncate to a 32-bit word. -/
def w32 (n : Nat) : Nat := n % 4294967296

/-- Right rotation of a 32-bit word. -/
def rotr (n x : Nat) : Nat := w32 ((x >>> n) ||| (x <<< (32 - n)))

/-- Bitwise complement within 32 bits (valid for `x < 2^32`). -/
def compl32 (x : Nat) : Nat := 4294967295 - x

def bigSigma0 (x : Nat) : Nat := (rotr 2 x) ^^^ (rotr 13 x) ^^^ (rotr 22 x)
def bigSigma1 (x : Nat) : Nat := (rotr 6 x) ^^^ (rotr 11 x) ^^^ (rotr 25 x)
def smallSigma0 (x : Nat) : Nat := (rotr 7 x) ^^^ (rotr 18 x) ^^^ (x >>> 3)
def smallSigma1 (x : Nat) : Nat := (rotr 17 x) ^^^ (rotr 19 x) ^^^ (x >>> 10)
def chFn (x y z : Nat) : Nat := (x &&& y) ^^^ (compl32 x &&& z)
def majFn (x y z : Nat) : Nat := (x &&& y) ^^^ (x &&& z) ^^^ (y &&& z)

/-- The SHA-256 round constants. -/
def sha256K : List Nat :=
  [1116352408, 1899447441, 3049323471, 3921009573, 961987163,
   1508970993, 2453635748, 2870763221, 3624381080, 310598401,
   607225278, 1426881987, 1925078388, 2162078206, 2614888103,
   3248222580, 3835390401, 4022224774, 264347078, 604807628,
   770255983, 1249150122, 1555081692, 1996064986, 2554220882,
   2821834349, 2952996808, 3210313671, 3336571891, 3584528711,
   113926993, 338241895, 666307205, 773529912, 1294757372,
   1396182291, 1695183700, 1986661051, 2177026350, 2456956037,
   2730485921, 2820302411, 3259730800, 3345764771, 3516065817,
   3600352804, 4094571909, 275423344, 430227734, 506948616,
   659060556, 883997877, 958139571, 1322822218, 1537002063,
   1747873779, 1955562222, 2024104815, 2227730452, 2361852424,
   2428436474, 2756734187, 3204031479, 3329325298]

/-- The SHA-256 initial hash value. -/
def sha256H0 : List Nat :=
  [1779033703, 3144134277, 1013904242, 2773480762,
   1359893119, 2600822924, 528734635, 1541459225]

/-- Big-endian 64-bit byte encoding. -/
def u64be (n : Nat) : List Nat :=
  [n >>> 56 % 256, n >>> 48 % 256, n >>> 40 % 256, n >>> 32 % 256,
   n >>> 24 % 256, n >>> 16 % 256, n >>> 8 % 256, n % 256]

/-- FIPS 180-4 padding: append `0x80`, zeros to 56 mod 64, and the bit length. -/
def padMessage (msg : List Nat) : List Nat :=
  let z := (119 - msg.length % 64) % 64
  msg ++ [128] ++ List.replicate z 0 ++ u64be (msg.length * 8)

/-- Split a byte list into 64-byte chunks (structural recursion on a fuel
bound so that the definition reduces in the kernel). -/
def toChunksAux : Nat → List Nat → List (List Nat)
  | _, [] => []
  | 0, l => [l]
  | fuel + 1, l => l.take 64 :: toChunksAux fuel (l.drop 64)

def toChunks (l : List Nat) : List (List Nat) := toChunksAux l.length l

/-- Big-endian 32-bit words of a 64-byte chunk. -/
def toWords : List Nat → List Nat
  | b0 :: b1 :: b2 :: b3 :: rest =>
      (b0 * 16777216 + b1 * 65536 + b2 * 256 + b3) :: toWords rest
  | _ => []

/-- Extend the 16-word message schedule by `n` further words. -/
def extendSchedule : List Nat → Nat → List Nat
  | ws, 0 => ws
  | ws, n + 1 =>
      let i := ws.length
      let w := w32 (smallSigma1 (ws.getD (i - 2) 0) + ws.getD (i - 7) 0 +
                    smallSigma0 (ws.getD (i - 15) 0) + ws.getD (i - 16) 0)
      extendSchedule (ws ++ [w]) n

/-- One round of the SHA-256 compression function. -/
def compressStep (st : List Nat) (kw : Nat × Nat) : List Nat :=
  match st with
  | [a, b, c, d, e, f, g, h] =>
      let t1 := w32 (h + bigSigma1 e + chFn e f g + kw.1 + kw.2)
      let t2 := w32 (bigSigma0 a + majFn a b c)
      [w32 (t1 + t2), a, b, c, w32 (d + t1), e, f, g]
  | _ => st

/-- Process one 64-byte chunk. -/
def compressChunk (h : List Nat) (chunk : List Nat) : List Nat :=
  let ws := extendSchedule (toWords chunk) 48
  let st := (sha256K.zip ws).foldl compressStep h
  List.zipWith (fun x y => w32 (x + y)) h st

/-- The eight 32-bit words of the SHA-256 digest of a byte list. -/
def sha256Words (msg : List Nat) : List Nat :=
  (toChunks (padMessage msg)).foldl compressChunk sha256H0

/-- Big-endian bytes of a 32-bit word. -/
def wordBytes (w : Nat) : List Nat :=
  [w >>> 24 % 256, w >>> 16 % 256, w >>> 8 % 256, w % 256]

/-- The 32 digest bytes. -/
def sha256Bytes (msg : List Nat) : List Nat :=
  (sha256Words msg).foldr (fun w acc => wordBytes w ++ acc) []

/-- The sixteen lowercase hexadecimal digits, as ASCII bytes. -/
def hexDigits : List Nat :=
  [48, 49, 50, 51, 52, 53, 54, 55, 56, 57, 97, 98, 99, 100, 101, 102]

def hexDigit (n : Nat) : Nat := hexDigits.getD n 48

/-- Two lowercase hex characters of one byte. -/
def byteHex (b : Nat) : List Nat := [hexDigit (b / 16 % 16), hexDigit (b % 16)]

/-- Lowercase hexadecimal SHA-256 digest (ASCII bytes of the hex string);
model of `createHash("sha256") … .digest("hex")`. -/
def sha256hex (msg : List Nat) : List Nat :=
  (sha256Bytes msg).foldr (fun b acc => byteHex b ++ acc) []

/-- Sanity check against the FIPS 180-4 test vector for "abc". -/
theorem sha256hex_abc :
    sha256hex (asciiBytes "abc") =
      asciiBytes "ba7816bf8f01cfea414140de5dae2223b00361a396177a9cb410ff61f20015ad" := by
  decide

/-! ## Byte-string utilities

Models of the JavaScript string operations the script uses, on UTF-8 byte
lists. -/

/-- Code-point comparison of two byte strings: one instance of the
collations `a.localeCompare(b)` can denote (real ICU collation is
locale-sensitive; see the header and `tieCmp`). -/
def cmpBytes : List Nat → List Nat → Ordering
  | [], [] => .eq
  | [], _ :: _ => .lt
  | _ :: _, [] => .gt
  | a :: as, b :: bs =>
      if a < b then .lt else if b < a then .gt else cmpBytes as bs

/-- The whitespace bytes stripped by `String.prototype.trim` that can occur
in a single-line cache file (ASCII whitespace). -/
def isWSByte (b : Nat) : Bool :=
  b == 9 || b == 10 || b == 11 || b == 12 || b == 13 || b == 32

/-- Model of `String.prototype.trim`: strip leading and trailing whitespace. -/
def trimB (l : List Nat) : List Nat :=
  ((l.dropWhile isWSByte).reverse.dropWhile isWSByte).reverse

/-- ASCII lower-casing of one byte; model of `toLowerCase` on ASCII. -/
def lowerByte (b : Nat) : Nat := if 65 ≤ b && b ≤ 90 then b + 32 else b

/-- Model of `String.prototype.toLowerCase` on ASCII strings. -/
def lowerB (l : List Nat) : List Nat := l.map lowerByte

def isPrefixB : List Nat → List Nat → Bool
  | [], _ => true
  | _ :: _, [] => false
  | a :: as, b :: bs => a == b && isPrefixB as bs

/-- Model of `String.prototype.includes`: `sub` occurs contiguously in `l`. -/
def isInfixB (sub : List Nat) : List Nat → Bool
  | [] => isPrefixB sub []
  | b :: bs => isPrefixB sub (b :: bs) || isInfixB sub bs

/-! ## Paths

A path is a list of name segments, relative to `repoRoot`.  A segment coming
from a real directory listing is nonempty and contains neither `/` (0x2F)
nor NUL (0x00), the two bytes POSIX forbids in file names. -/

/-- A file-name segment (UTF-8 bytes). -/
abbrev Seg := List Nat

/-- A repo-relative filesystem path. -/
abbrev FPath := List Seg

/-- Model of `normalize` (line 41–43): join the segments of the relative
path with "/" (0x2F).  The script computes `p.split(path.sep).join("/")`;
on segment lists this is exactly interleaving the separator. -/
def normalize : FPath → List Nat
  | [] => []
  | [s] => s
  | s :: s' :: rest => s ++ 47 :: normalize (s' :: rest)

/-- A name segment as a real directory listing produces it. -/
def validSeg (s : Seg) : Prop := s ≠ [] ∧ 47 ∉ s ∧ 0 ∉ s

/-- A path whose segments all come from real directory listings. -/
def validPath (p : FPath) : Prop := p ≠ [] ∧ ∀ s ∈ p, validSeg s

instance (s : Seg) : Decidable (validSeg s) := by unfold validSeg; infer_instance

instance (p : FPath) : Decidable (validPath p) := by unfold validPath; infer_instance

/-! ## Filesystem snapshot -/

/-- A filesystem tree: regular files with byte contents, directories with
named entries (the `readdir` listing, in listing order). -/
inductive FSEntry where
  | file (content : List Nat)
  | dir (entries : List (Seg × FSEntry))

/-- First entry with the given name in a directory listing. -/
def findEntry (n : Seg) : List (Seg × FSEntry) → Option FSEntry
  | [] => none
  | (m, e) :: rest => if m = n then some e else findEntry n rest

/-- Resolve a repo-relative path in the snapshot. -/
def lookupFs : FPath → FSEntry → Option FSEntry
  | [], e => some e
  | _ :: _, .file _ => none
  | n :: rest, .dir es =>
      match findEntry n es with
      | some e => lookupFs rest e
      | none => none

/-- Model of `exists` (lines 20–27): `fs.stat` succeeds exactly when the
path resolves; every failure collapses to `false`. -/
def existsFs (fs : FSEntry) (p : FPath) : Bool := (lookupFs p fs).isSome

/-- An enumerated file: its repo-relative path and its byte contents. -/
abbrev FileRec := FPath × List Nat

mutual

/-- Recursive descent of `walk` (lines 29–39) below an already-resolved
entry.  The later `fs.readFile` of each enumerated file (line 57) is fused
into enumeration: the snapshot is immutable during a run, so reading at
enumeration time returns the same bytes. -/
def walkEntry : FPath → FSEntry → List FileRec
  | pfx, .file c => [(pfx, c)]
  | pfx, .dir es => walkEntries pfx es

/-- `walk`'s `for (const entry of entries)` loop over a directory listing. -/
def walkEntries : FPath → List (Seg × FSEntry) → List FileRec
  | _, [] => []
  | pfx, (n, e) :: rest => walkEntry (pfx ++ [n]) e ++ walkEntries pfx rest

end

/-- A failed run, as surfaced by the `.catch` handler at the entry point. -/
inductive Failure where
  | statError
  | readError
  | spawnError (msg : List Nat)
  | commandFailed (msg : List Nat)
deriving DecidableEq

/-- Model of a top-level `walk(input, files)` call (line 47): the initial
`fs.stat` of a root that does not resolve rejects and aborts the run. -/
def walkRootE (fs : FSEntry) (p : FPath) : Except Failure (List FileRec) :=
  match lookupFs p fs with
  | none => .error .statError
  | some e => .ok (walkEntry p e)

/-! ## The script's fixed paths (lines 7–18), repo-relative -/

def packageJsonPath : FPath := [asciiBytes "package.json"]

def pnpmLockPath : FPath := [asciiBytes "pnpm-lock.yaml"]

def a2uiRendererDir : FPath :=
  [asciiBytes "vendor", asciiBytes "a2ui", asciiBytes "renderers", asciiBytes "lit"]

def a2uiAppDir : FPath :=
  [asciiBytes "apps", asciiBytes "shared", asciiBytes "OpenClawKit", asciiBytes "Tools",
   asciiBytes "CanvasA2UI"]

def hashFilePath : FPath :=
  [asciiBytes "src", asciiBytes "canvas-host", asciiBytes "a2ui", asciiBytes ".bundle.hash"]

def outputFilePath : FPath :=
  [asciiBytes "src", asciiBytes "canvas-host", asciiBytes "a2ui", asciiBytes "a2ui.bundle.js"]

def inputPaths : List FPath := [packageJsonPath, pnpmLockPath, a2uiRendererDir, a2uiAppDir]

/-! ## Fingerprint Computer (`computeHash`, lines 45–62) -/

/-- The line-51 comparator
`(a, b) => normalize(a).localeCompare(normalize(b))` under code-point
collation, as the predicate "a need not come after b": the comparison of
the normalised paths is not `gt`.  This is the collation instance under
which the concrete byte-level properties are evaluated; the sort itself is
parametric in the collation (`sortFilesBy`). -/
def fileLe (a b : FileRec) : Bool :=
  match cmpBytes (normalize a.1) (normalize b.1) with
  | .gt => false
  | _ => true

/-- The collation key of an ICU-like collation for which the control
character U+0001 is completely ignorable, as it is in the CLDR root
collation Node uses by default (`"a\u0001".localeCompare("a") === 0`);
byte 0x01 is a legal file-name byte, so such paths can reach the sort. -/
def stripIgnorable (l : List Nat) : List Nat := l.filter (fun b => b != 1)

/-- That collation's three-way comparison. -/
def tieCmp (a b : List Nat) : Ordering :=
  cmpBytes (stripIgnorable a) (stripIgnorable b)

/-- The line-51 comparator under the `tieCmp` collation. -/
def tieFileLe (a b : FileRec) : Bool :=
  match tieCmp (normalize a.1) (normalize b.1) with
  | .gt => false
  | _ => true

/-- Insert into a sorted list under the collation `le`, keeping
earlier-enumerated entries first among ties (stability, as
`Array.prototype.sort` guarantees). -/
def insertSortedBy (le : FileRec → FileRec → Bool) (x : FileRec) : List FileRec → List FileRec
  | [] => [x]
  | y :: ys => if le x y then x :: y :: ys else y :: insertSortedBy le x ys

/-- Model of `files.sort((a, b) => normalize(a).localeCompare(normalize(b)))`
on line 51: a stable sort of the enumerated list by normalised path under
the process's collation `le`, which is a parameter of the model because
`localeCompare` is locale-sensitive. -/
def sortFilesBy (le : FileRec → FileRec → Bool) : List FileRec → List FileRec
  | [] => []
  | x :: xs => insertSortedBy le x (sortFilesBy le xs)

/-- The line-51 sort under the code-point collation instance. -/
def sortFiles : List FileRec → List FileRec := sortFilesBy fileLe

/-- The byte sequence fed to the hash by the `hash.update` loop of
lines 53–59, over an already-sorted file list: for each file, the
normalised repo-relative path, a 0x00 byte, the raw contents, a 0x00
byte. -/
def hashUpdates (sorted : List FileRec) : List Nat :=
  sorted.foldl (fun acc fc => acc ++ normalize fc.1 ++ [0] ++ fc.2 ++ [0]) []

/-- Lines 51–61 of `computeHash`: sort the enumerated list, feed the update
stream, return the lowercase hex digest. -/
def hashFiles (files : List FileRec) : List Nat :=
  sha256hex (hashUpdates (sortFiles files))

/-- Lines 51–61 with the collation abstracted: sort under the process's
collation `le`, feed the update stream, digest. -/
def hashFilesBy (le : FileRec → FileRec → Bool) (files : List FileRec) : List Nat :=
  sha256hex (hashUpdates (sortFilesBy le files))

/-- Lines 46–49 of `computeHash`: enumerate every input root, in order,
into one list; a root whose initial `stat` fails aborts.  The
`for (const input of inputPaths)` loop is unrolled over the four fixed
members of `inputPaths`. -/
def enumerateE (fs : FSEntry) : Except Failure (List FileRec) := do
  let f1 ← walkRootE fs packageJsonPath
  let f2 ← walkRootE fs pnpmLockPath
  let f3 ← walkRootE fs a2uiRendererDir
  let f4 ← walkRootE fs a2uiAppDir
  pure (((f1 ++ f2) ++ f3) ++ f4)

/-- Model of `computeHash` (lines 45–62). -/
def computeHashE (fs : FSEntry) : Except Failure (List Nat) := do
  let files ← enumerateE fs
  pure (hashFiles files)

/-! ## Pipeline Invoker (`runPnpm`, lines 64–85) -/

/-- Result of one `spawnSync` call: a spawn-level error (the `String(err)`
rendering of `res.error`), or an exit status (`none` models a `null`
status). -/
structure SpawnOutcome where
  error : Option (List Nat)
  status : Option Int
deriving DecidableEq

/-- The process-level environment of one run: the filesystem snapshot under
`repoRoot`, the `npm_execpath` variable, `process.execPath`, the platform,
and the behaviour of `spawnSync` (command, argument list ↦ outcome). -/
structure World where
  fs : FSEntry
  npmExecPath : Option (List Nat)
  execPath : List Nat
  platformWin32 : Bool
  spawn : List Nat → List (List Nat) → SpawnOutcome

def pnpmBytes : List Nat := asciiBytes "pnpm"

/-- Lines 65–69: `npm_execpath` is set, nonempty, and its lower-casing
contains "pnpm". -/
def isProbablyPnpmExecPath (w : World) : Bool :=
  match w.npmExecPath with
  | some s => !s.isEmpty && isInfixB pnpmBytes (lowerB s)
  | none => false

/-- Lines 71–75: the executable `spawnSync` is given. -/
def pnpmCommand (w : World) : List Nat :=
  if isProbablyPnpmExecPath w then w.execPath
  else if w.platformWin32 then asciiBytes "pnpm.cmd" else asciiBytes "pnpm"

/-- Line 76: the argument list `spawnSync` is given. -/
def pnpmFullArgs (w : World) (args : List (List Nat)) : List (List Nat) :=
  if isProbablyPnpmExecPath w then
    match w.npmExecPath with
    | some s => s :: args
    | none => args
  else args

/-- Line 83: `` `Command failed: pnpm ${args.join(" ")}` ``. -/
def cmdFailedMsg (args : List (List Nat)) : List Nat :=
  asciiBytes "Command failed: pnpm " ++ (List.intercalate (asciiBytes " ") args)

/-- Model of `runPnpm` (lines 64–85): spawn, then fail on a spawn error or
a non-zero (or absent) exit status. -/
def runPnpm (w : World) (args : List (List Nat)) : Except Failure Unit :=
  let res := w.spawn (pnpmCommand w) (pnpmFullArgs w args)
  match res.error with
  | some e => .error (.spawnError e)
  | none =>
      if res.status = some 0 then .ok ()
      else .error (.commandFailed (cmdFailedMsg args))

/-- Stage 1 (line 102): type-check the renderer subtree.  The script passes
the absolute `path.join(a2uiRendererDir, "tsconfig.json")`; arguments are
modelled repo-relatively in normalised form. -/
def stage1Args : List (List Nat) :=
  [asciiBytes "-s", asciiBytes "exec", asciiBytes "tsc", asciiBytes "-p",
   asciiBytes "vendor/a2ui/renderers/lit/tsconfig.json"]

/-- Stage 2 (line 103): bundle the app subtree. -/
def stage2Args : List (List Nat) :=
  [asciiBytes "-s", asciiBytes "exec", asciiBytes "rolldown", asciiBytes "-c",
   asciiBytes "apps/shared/OpenClawKit/Tools/CanvasA2UI/rolldown.config.mjs"]

/-! ## Cache State Store (lines 94–95 and 105) -/

/-- Line 105: `fs.writeFile(hashFile, `${currentHash}\n`)` — the stored
bytes are the fingerprint plus a trailing newline. -/
def cacheWriteContent (f : List Nat) : List Nat := f ++ [10]

/-- Line 95: `(await fs.readFile(hashFile, "utf8")).trim()`. -/
def cacheReadValue (raw : List Nat) : List Nat := trimB raw

/-! ## Orchestrator (`main`, lines 87–106, and the entry hook 108–115) -/

inductive MainOutcome where
  | skippedMissingSources
  | skippedUpToDate
  | built
  | failed (f : Failure)
deriving DecidableEq

/-- Everything externally observable about one run: how it ended, the
argument lists of the pipeline stages that were invoked (in order), and the
bytes written to the cache file, if any. -/
structure RunResult where
  outcome : MainOutcome
  invoked : List (List (List Nat))
  hashWritten : Option (List Nat)
deriving DecidableEq

/-- Model of `main` (lines 87–106).  The cache probe of lines 93–98 reads
the hash file only when it exists; `fs.readFile` of a directory rejects
(EISDIR), which the entry hook turns into a failed run. -/
def mainRun (w : World) : RunResult :=
  if !(existsFs w.fs a2uiRendererDir) || !(existsFs w.fs a2uiAppDir) then
    ⟨.skippedMissingSources, [], none⟩
  else
    match computeHashE w.fs with
    | .error f => ⟨.failed f, [], none⟩
    | .ok currentHash =>
      let cacheStep : Except Failure Bool :=
        match lookupFs hashFilePath w.fs with
        | none => .ok false
        | some (.dir _) => .error .readError
        | some (.file raw) =>
            .ok ((cacheReadValue raw == currentHash) && existsFs w.fs outputFilePath)
      match cacheStep with
      | .error f => ⟨.failed f, [], none⟩
      | .ok true => ⟨.skippedUpToDate, [], none⟩
      | .ok false =>
          match runPnpm w stage1Args with
          | .error f => ⟨.failed f, [stage1Args], none⟩
          | .ok _ =>
              match runPnpm w stage2Args with
              | .error f => ⟨.failed f, [stage1Args, stage2Args], none⟩
              | .ok _ =>
                  ⟨.built, [stage1Args, stage2Args], some (cacheWriteContent currentHash)⟩

/-- Lines 108–115: a failed run calls `process.exit(1)` from the `.catch`
handler; otherwise the process exits 0. -/
def exitCode (r : RunResult) : Nat :=
  match r.outcome with
  | .failed _ => 1
  | _ => 0

/-- The `String(err)` line the `.catch` handler prints (line 112).  For a
spawn-level failure this is the underlying system error carried by
`res.error`; only for a non-zero exit status does the script itself build a
message, which names the stage's arguments. -/
def diagnostic : Failure → List Nat
  | .statError => asciiBytes "Error: ENOENT: no such file or directory"
  | .readError => asciiBytes "Error: EISDIR: illegal operation on a directory"
  | .spawnError m => m
  | .commandFailed m => asciiBytes "Error: " ++ m

/-! ## Properties of the comparator -/

theorem cmpBytes_eq_iff (a b : List Nat) : cmpBytes a b = .eq ↔ a = b := by
  induction a generalizing b with
  | nil => cases b <;> simp [cmpBytes]
  | cons x xs ih =>
    cases b with
    | nil => simp [cmpBytes]
    | cons y ys =>
      simp only [cmpBytes]
      by_cases h1 : x < y
      · simp only [if_pos h1]
        constructor
        · intro h; exact absurd h (by decide)
        · intro h; injection h with h' _; omega
      · by_cases h2 : y < x
        · simp only [if_neg h1, if_pos h2]
          constructor
          · intro h; exact absurd h (by decide)
          · intro h; injection h with h' _; omega
        · have hxy : x = y := by omega
          subst hxy
          simp [if_neg h1, if_neg h2, ih]

theorem cmpBytes_swap (a b : List Nat) : cmpBytes b a = (cmpBytes a b).swap := by
  induction a generalizing b with
  | nil => cases b <;> simp [cmpBytes, Ordering.swap]
  | cons x xs ih =>
    cases b with
    | nil => simp [cmpBytes, Ordering.swap]
    | cons y ys =>
      simp only [cmpBytes]
      by_cases h1 : x < y
      · have h2 : ¬ y < x := by omega
        simp [if_pos h1, if_neg h2, Ordering.swap]
      · by_cases h2 : y < x
        · simp [if_pos h2, if_neg h1, Ordering.swap]
        · simp [if_neg h1, if_neg h2, ih]

theorem cmpBytes_le_antisymm {a b : List Nat} (h1 : cmpBytes a b ≠ .gt)
    (h2 : cmpBytes b a ≠ .gt) : a = b := by
  rcases h : cmpBytes a b with - | - | -
  · rw [cmpBytes_swap a b, h] at h2
    exact absurd rfl h2
  · exact (cmpBytes_eq_iff a b).mp h
  · exact absurd h h1

theorem cmpBytes_le_trans {a b c : List Nat} (h1 : cmpBytes a b ≠ .gt)
    (h2 : cmpBytes b c ≠ .gt) : cmpBytes a c ≠ .gt := by
  induction a generalizing b c with
  | nil => cases c <;> simp [cmpBytes]
  | cons x xs ih =>
    cases b with
    | nil => simp [cmpBytes] at h1
    | cons y ys =>
      cases c with
      | nil => simp [cmpBytes] at h2
      | cons z zs =>
        simp only [cmpBytes] at h1 h2 ⊢
        by_cases hxy : x < y
        · -- from h2, y ≤ z, hence x < z
          have hyz : y ≤ z := by
            by_contra hzy
            simp [if_neg (by omega : ¬ y < z), if_pos (by omega : z < y)] at h2
          simp [if_pos (by omega : x < z)]
        · have hyx : ¬ y < x := by
            intro hyx
            simp [if_neg hxy, if_pos hyx] at h1
          have hx : x = y := by omega
          subst hx
          simp only [if_neg hxy, if_neg hyx] at h1
          by_cases hxz : x < z
          · simp [if_pos hxz]
          · have hzx : ¬ z < x := by
              intro hzx
              simp [if_neg (by omega : ¬ x < z), if_pos hzx] at h2
            have hz : x = z := by omega
            subst hz
            simp only [if_neg hxz, if_neg hzx] at h2 ⊢
            exact ih h1 h2

theorem fileLe_iff (a b : FileRec) :
    fileLe a b = true ↔ cmpBytes (normalize a.1) (normalize b.1) ≠ .gt := by
  unfold fileLe
  rcases h : cmpBytes (normalize a.1) (normalize b.1) with - | - | - <;> simp [h]

theorem fileLe_total (a b : FileRec) : fileLe a b = true ∨ fileLe b a = true := by
  rw [fileLe_iff, fileLe_iff]
  rcases h : cmpBytes (normalize a.1) (normalize b.1) with - | - | -
  · left; simp [h]
  · left; simp [h]
  · right; rw [cmpBytes_swap, h]; simp [Ordering.swap]

theorem fileLe_trans {a b c : FileRec} (h1 : fileLe a b = true) (h2 : fileLe b c = true) :
    fileLe a c = true := by
  rw [fileLe_iff] at h1 h2 ⊢
  exact cmpBytes_le_trans h1 h2

theorem fileLe_antisymm_key {a b : FileRec} (h1 : fileLe a b = true) (h2 : fileLe b a = true) :
    normalize a.1 = normalize b.1 := by
  rw [fileLe_iff] at h1 h2
  exact cmpBytes_le_antisymm h1 h2

/-! ## Properties of the sort, for an arbitrary collation -/

theorem insertSortedBy_perm (le : FileRec → FileRec → Bool) (x : FileRec) (l : List FileRec) :
    List.Perm (insertSortedBy le x l) (x :: l) := by
  induction l with
  | nil => exact List.Perm.refl _
  | cons y ys ih =>
    unfold insertSortedBy
    by_cases h : le x y = true
    · simp only [if_pos h]
      exact List.Perm.refl _
    · simp only [if_neg h]
      exact (ih.cons y).trans (List.Perm.swap x y ys)

theorem sortFilesBy_perm (le : FileRec → FileRec → Bool) (l : List FileRec) :
    List.Perm (sortFilesBy le l) l := by
  induction l with
  | nil => exact List.Perm.refl _
  | cons x xs ih =>
    exact (insertSortedBy_perm le x (sortFilesBy le xs)).trans (ih.cons x)

theorem sortFiles_perm (l : List FileRec) : List.Perm (sortFiles l) l :=
  sortFilesBy_perm fileLe l

theorem insertSortedBy_mem {le : FileRec → FileRec → Bool} {z x : FileRec} {l : List FileRec} :
    z ∈ insertSortedBy le x l ↔ z = x ∨ z ∈ l := by
  rw [(insertSortedBy_perm le x l).mem_iff]
  simp

theorem insertSortedBy_pairwise {le : FileRec → FileRec → Bool}
    (htotal : ∀ a b, le a b = true ∨ le b a = true)
    (htrans : ∀ a b c, le a b = true → le b c = true → le a c = true)
    {x : FileRec} {l : List FileRec} (h : l.Pairwise (fun a b => le a b = true)) :
    (insertSortedBy le x l).Pairwise (fun a b => le a b = true) := by
  induction l with
  | nil => simp [insertSortedBy]
  | cons y ys ih =>
    obtain ⟨hy, hys⟩ := List.pairwise_cons.mp h
    unfold insertSortedBy
    by_cases hxy : le x y = true
    · simp only [if_pos hxy]
      refine List.pairwise_cons.mpr ⟨?_, h⟩
      intro z hz
      rcases List.mem_cons.mp hz with rfl | hz
      · exact hxy
      · exact htrans _ _ _ hxy (hy z hz)
    · simp only [if_neg hxy]
      refine List.pairwise_cons.mpr ⟨?_, ih hys⟩
      intro z hz
      rcases insertSortedBy_mem.mp hz with rfl | hz
      · rcases htotal z y with h' | h'
        · exact absurd h' hxy
        · exact h'
      · exact hy z hz

theorem sortFilesBy_pairwise (le : FileRec → FileRec → Bool)
    (htotal : ∀ a b, le a b = true ∨ le b a = true)
    (htrans : ∀ a b c, le a b = true → le b c = true → le a c = true)
    (l : List FileRec) :
    (sortFilesBy le l).Pairwise (fun a b => le a b = true) := by
  induction l with
  | nil => simp [sortFilesBy]
  | cons x xs ih => exact insertSortedBy_pairwise htotal htrans ih

theorem sortFiles_pairwise (l : List FileRec) :
    (sortFiles l).Pairwise (fun a b => fileLe a b = true) :=
  sortFilesBy_pairwise fileLe fileLe_total (fun _ _ _ => fileLe_trans) l

/-- Two sorted permutations of each other are equal, provided the order is
antisymmetric on the elements involved. -/
theorem sorted_eq_of_perm {le : FileRec → FileRec → Bool} {l1 l2 : List FileRec}
    (hp : List.Perm l1 l2)
    (hs1 : l1.Pairwise (fun a b => le a b = true))
    (hs2 : l2.Pairwise (fun a b => le a b = true))
    (hanti : ∀ a ∈ l1, ∀ b ∈ l1, le a b = true → le b a = true → a = b) :
    l1 = l2 := by
  induction l1 generalizing l2 with
  | nil =>
    have h0 : l2.length = 0 := by simpa using hp.length_eq.symm
    exact (List.length_eq_zero.mp h0).symm
  | cons a t1 ih =>
    cases l2 with
    | nil => simpa using hp.length_eq
    | cons b t2 =>
      obtain ⟨ha1, hs1'⟩ := List.pairwise_cons.mp hs1
      obtain ⟨hb2, hs2'⟩ := List.pairwise_cons.mp hs2
      have hab : a = b := by
        by_cases h : a = b
        · exact h
        · have hbmem : b ∈ a :: t1 := hp.mem_iff.mpr (List.mem_cons_self b t2)
          have hamem : a ∈ b :: t2 := hp.mem_iff.mp (List.mem_cons_self a t1)
          have hb1 : b ∈ t1 := by
            rcases List.mem_cons.mp hbmem with h' | h'
            · exact absurd h'.symm h
            · exact h'
          have ha2 : a ∈ t2 := by
            rcases List.mem_cons.mp hamem with h' | h'
            · exact absurd h' h
            · exact h'
          exact hanti a (List.mem_cons_self a t1) b hbmem (ha1 b hb1) (hb2 a ha2)
      subst hab
      have hp' : List.Perm t1 t2 := hp.cons_inv
      have hanti' : ∀ x ∈ t1, ∀ y ∈ t1, le x y = true → le y x = true → x = y := by
        intro x hx y hy
        exact hanti x (List.mem_cons_of_mem a hx) y (List.mem_cons_of_mem a hy)
      rw [ih hp' hs1' hs2' hanti']

/-! ## Injectivity of path normalisation and of the pre-hash encoding -/

/-- Splitting at a separator that occurs in neither prefix is unambiguous. -/
theorem sep_split {sep : Nat} {a1 a2 r1 r2 : List Nat} (h1 : sep ∉ a1) (h2 : sep ∉ a2)
    (h : a1 ++ sep :: r1 = a2 ++ sep :: r2) : a1 = a2 ∧ r1 = r2 := by
  induction a1 generalizing a2 with
  | nil =>
    cases a2 with
    | nil => simpa using h
    | cons y ys =>
      simp only [List.nil_append, List.cons_append] at h
      injection h with hy _
      exact absurd (by simp [hy]) h2
  | cons x xs ih =>
    cases a2 with
    | nil =>
      simp only [List.cons_append, List.nil_append] at h
      injection h with hy _
      exact absurd (by simp [hy]) h1
    | cons y ys =>
      simp only [List.cons_append] at h
      injection h with hxy h'
      subst hxy
      have h1' : sep ∉ xs := fun hm => h1 (List.mem_cons_of_mem x hm)
      have h2' : sep ∉ ys := fun hm => h2 (List.mem_cons_of_mem x hm)
      obtain ⟨he, hr⟩ := ih h1' h2' h'
      exact ⟨by rw [he], hr⟩

/-- On paths made of real directory-listing segments, `normalize` is
injective: no two distinct paths share a normalised form. -/
theorem normalize_inj {p : FPath} : ∀ {q : FPath}, validPath p → validPath q →
    normalize p = normalize q → p = q := by
  induction p with
  | nil => intro q hp _ _; exact absurd rfl hp.1
  | cons s ps ih =>
    intro q hp hq h
    cases q with
    | nil => exact absurd rfl hq.1
    | cons t qs =>
      have hs47 : 47 ∉ s := (hp.2 s (List.mem_cons_self s ps)).2.1
      have ht47 : 47 ∉ t := (hq.2 t (List.mem_cons_self t qs)).2.1
      cases ps with
      | nil =>
        cases qs with
        | nil => simp only [normalize] at h; rw [h]
        | cons t' qs' =>
          simp only [normalize] at h
          exact absurd (by rw [h]; simp) hs47
      | cons s' ps' =>
        cases qs with
        | nil =>
          simp only [normalize] at h
          exact absurd (by rw [← h]; simp) ht47
        | cons t' qs' =>
          simp only [normalize] at h
          obtain ⟨hst, hrest⟩ := sep_split hs47 ht47 h
          subst hst
          have hps : validPath (s' :: ps') :=
            ⟨List.cons_ne_nil _ _, fun z hz => hp.2 z (List.mem_cons_of_mem s hz)⟩
          have hqs : validPath (t' :: qs') :=
            ⟨List.cons_ne_nil _ _, fun z hz => hq.2 z (List.mem_cons_of_mem s hz)⟩
          rw [ih hps hqs hrest]

/-- A valid path's normalised form contains no NUL byte. -/
theorem normalize_zero_free {p : FPath} (hp : validPath p) : 0 ∉ normalize p := by
  induction p with
  | nil => simp [normalize]
  | cons s ps ih =>
    have hs : 0 ∉ s := (hp.2 s (List.mem_cons_self s ps)).2.2
    cases ps with
    | nil => simpa [normalize] using hs
    | cons s' ps' =>
      simp only [normalize]
      intro hmem
      rcases List.mem_append.mp hmem with h | h
      · exact hs h
      · rcases List.mem_cons.mp h with h' | h'
        · exact absurd h' (by decide)
        · exact ih ⟨List.cons_ne_nil _ _, fun z hz => hp.2 z (List.mem_cons_of_mem s hz)⟩ h'

/-- The `hash.update` loop accumulates exactly the concatenation of the
per-file blocks, in order. -/
theorem hashUpdates_eq_flatten (l : List FileRec) :
    hashUpdates l = (l.map (fun fc => normalize fc.1 ++ [0] ++ fc.2 ++ [0])).flatten := by
  have key : ∀ (l : List FileRec) (acc : List Nat),
      l.foldl (fun acc fc => acc ++ normalize fc.1 ++ [0] ++ fc.2 ++ [0]) acc =
        acc ++ (l.map (fun fc => normalize fc.1 ++ [0] ++ fc.2 ++ [0])).flatten := by
    intro l
    induction l with
    | nil => intro acc; simp
    | cons fc rest ih =>
      intro acc
      simp only [List.foldl_cons, List.map_cons, List.flatten_cons]
      rw [ih]
      simp [List.append_assoc]
  simpa [hashUpdates] using key l []

/-- NUL-terminated chunks: the way the update stream interleaves data and
separators. -/
def sepChunks (l : List (List Nat)) : List Nat := (l.map (fun c => c ++ [0])).flatten

/-- NUL-terminated encoding of NUL-free chunks is injective. -/
theorem sepChunks_inj : ∀ {l1 l2 : List (List Nat)}, (∀ c ∈ l1, 0 ∉ c) → (∀ c ∈ l2, 0 ∉ c) →
    sepChunks l1 = sepChunks l2 → l1 = l2 := by
  intro l1
  induction l1 with
  | nil =>
    intro l2 _ _ h
    cases l2 with
    | nil => rfl
    | cons c cs => simp [sepChunks] at h
  | cons c cs ih =>
    intro l2 h1 h2 h
    cases l2 with
    | nil => simp [sepChunks] at h
    | cons d ds =>
      simp only [sepChunks, List.map_cons, List.flatten_cons, List.append_assoc,
        List.singleton_append] at h
      obtain ⟨hcd, hrest⟩ :=
        sep_split (h1 c (List.mem_cons_self c cs)) (h2 d (List.mem_cons_self d ds)) h
      subst hcd
      rw [ih (fun z hz => h1 z (List.mem_cons_of_mem c hz))
          (fun z hz => h2 z (List.mem_cons_of_mem c hz)) (by simpa [sepChunks] using hrest)]

/-- The chunk sequence of a file list: normalised path, then contents, for
each file in order. -/
def fileChunks (l : List FileRec) : List (List Nat) :=
  (l.map (fun fc => [normalize fc.1, fc.2])).flatten

theorem fileChunks_inj : ∀ {l1 l2 : List FileRec},
    (∀ fc ∈ l1, validPath fc.1) → (∀ fc ∈ l2, validPath fc.1) →
    fileChunks l1 = fileChunks l2 → l1 = l2 := by
  intro l1
  induction l1 with
  | nil =>
    intro l2 _ _ h
    cases l2 with
    | nil => rfl
    | cons d ds => simp [fileChunks] at h
  | cons c cs ih =>
    intro l2 h1 h2 h
    cases l2 with
    | nil => simp [fileChunks] at h
    | cons d ds =>
      simp only [fileChunks, List.map_cons, List.flatten_cons, List.cons_append,
        List.nil_append] at h
      injection h with hn h'
      injection h' with hc h''
      have hcd : c = d :=
        Prod.ext (normalize_inj (h1 c (List.mem_cons_self c cs))
          (h2 d (List.mem_cons_self d ds)) hn) hc
      subst hcd
      rw [ih (fun z hz => h1 z (List.mem_cons_of_mem c hz))
          (fun z hz => h2 z (List.mem_cons_of_mem c hz)) (by simpa [fileChunks] using h'')]

/-- The update stream is the NUL-terminated chunk encoding of the chunk
sequence. -/
theorem flatten_blocks_eq_sepChunks (l : List FileRec) :
    (l.map (fun fc => normalize fc.1 ++ [0] ++ fc.2 ++ [0])).flatten =
      sepChunks (fileChunks l) := by
  induction l with
  | nil => rfl
  | cons fc rest ih =>
    simp only [List.map_cons, List.flatten_cons, fileChunks, sepChunks, List.map_append,
      List.flatten_append] at ih ⊢
    rw [← ih]
    simp [List.append_assoc]

/-! ## Cache round trip and diagnostics -/

theorem dropWhile_all_false {p : Nat → Bool} {l : List Nat} (h : ∀ b ∈ l, p b = false) :
    l.dropWhile p = l := by
  cases l with
  | nil => rfl
  | cons x xs => simp [List.dropWhile_cons, h x (List.mem_cons_self x xs)]

theorem isPrefixB_refl (l : List Nat) : isPrefixB l l = true := by
  induction l with
  | nil => rfl
  | cons x xs ih => simp [isPrefixB, ih]

theorem isInfixB_suffix (sub : List Nat) : ∀ (pre : List Nat), isInfixB sub (pre ++ sub) = true := by
  intro pre
  induction pre with
  | nil =>
    cases sub with
    | nil => rfl
    | cons s ss => simp [isInfixB, isPrefixB_refl]
  | cons p ps ih => simp [isInfixB, ih]

/-! ## The digest alphabet -/

theorem hexDigit_mem : ∀ n, n < 16 → hexDigit n ∈ hexDigits := by decide

theorem sha256hex_mem_hexDigits (msg : List Nat) : ∀ b ∈ sha256hex msg, b ∈ hexDigits := by
  unfold sha256hex
  generalize sha256Bytes msg = l
  induction l with
  | nil => simp
  | cons x xs ih =>
    intro b hb
    simp only [List.foldr_cons] at hb
    rcases List.mem_append.mp hb with hb | hb
    · unfold byteHex at hb
      rcases List.mem_cons.mp hb with rfl | hb
      · exact hexDigit_mem _ (Nat.mod_lt _ (by omega))
      · rcases List.mem_cons.mp hb with rfl | hb
        · exact hexDigit_mem _ (Nat.mod_lt _ (by omega))
        · simp at hb
    · exact ih b hb

/-! ## Unfolding the orchestrator -/

/-- The skip condition of lines 93–98: the cache file holds (after
trimming) the current fingerprint, and the output artifact exists. -/
def upToDate (w : World) (current : List Nat) : Prop :=
  (∃ raw, lookupFs hashFilePath w.fs = some (.file raw) ∧ cacheReadValue raw = current)
  ∧ existsFs w.fs outputFilePath = true

theorem mainRun_skip {w : World} {cur : List Nat}
    (hr : existsFs w.fs a2uiRendererDir = true) (ha : existsFs w.fs a2uiAppDir = true)
    (hc : computeHashE w.fs = .ok cur) (hu : upToDate w cur) :
    mainRun w = ⟨.skippedUpToDate, [], none⟩ := by
  obtain ⟨⟨raw, hl, hv⟩, hart⟩ := hu
  unfold mainRun
  rw [hr, ha, hc, hl]
  simp [hv, hart]

theorem mainRun_noskip {w : World} {cur : List Nat}
    (hr : existsFs w.fs a2uiRendererDir = true) (ha : existsFs w.fs a2uiAppDir = true)
    (hc : computeHashE w.fs = .ok cur)
    (hcache : ∀ es, lookupFs hashFilePath w.fs ≠ some (.dir es))
    (hu : ¬ upToDate w cur) :
    mainRun w =
      match runPnpm w stage1Args with
      | .error f => ⟨.failed f, [stage1Args], none⟩
      | .ok _ =>
          match runPnpm w stage2Args with
          | .error f => ⟨.failed f, [stage1Args, stage2Args], none⟩
          | .ok _ => ⟨.built, [stage1Args, stage2Args], some (cacheWriteContent cur)⟩ := by
  unfold mainRun
  rcases hl : lookupFs hashFilePath w.fs with - | e
  · rw [hr, ha, hc]
    simp
  · cases e with
    | dir es => exact absurd hl (hcache es)
    | file raw =>
      have hfalse : ((cacheReadValue raw == cur) && existsFs w.fs outputFilePath) = false := by
        by_cases h1 : cacheReadValue raw = cur
        · by_cases h2 : existsFs w.fs outputFilePath = true
          · exact absurd ⟨⟨raw, hl, h1⟩, h2⟩ hu
          · have h2' : existsFs w.fs outputFilePath = false := by
              revert h2
              cases existsFs w.fs outputFilePath <;> simp
            simp [h2']
        · have h1' : (cacheReadValue raw == cur) = false := by
            cases hb : (cacheReadValue raw == cur) with
            | false => rfl
            | true => exact absurd (beq_iff_eq.mp hb) h1
          simp [h1']
      rw [hr, ha, hc]
      simp [hfalse]

/-- A missing manifest or lockfile makes the fingerprint computation itself
fail at the initial `stat` of that root. -/
theorem computeHashE_statError {fs : FSEntry}
    (h : lookupFs packageJsonPath fs = none ∨ lookupFs pnpmLockPath fs = none) :
    computeHashE fs = .error .statError := by
  rcases h with h | h
  · simp only [computeHashE, enumerateE, walkRootE, h]
    rfl
  · rcases hp : lookupFs packageJsonPath fs with - | e
    · simp only [computeHashE, enumerateE, walkRootE, hp]
      rfl
    · simp only [computeHashE, enumerateE, walkRootE, hp, h]
      rfl

/-- Under any total, transitive collation that does not tie distinct
entries of the list, the line-51 sort is uniquely determined by the
underlying multiset: any two enumeration orders sort to the same list. -/
theorem sortFilesBy_eq_of_perm (le : FileRec → FileRec → Bool)
    (htotal : ∀ a b, le a b = true ∨ le b a = true)
    (htrans : ∀ a b c, le a b = true → le b c = true → le a c = true)
    {l1 l2 : List FileRec}
    (hanti : ∀ a ∈ l1, ∀ b ∈ l1, le a b = true → le b a = true → a = b)
    (hp : List.Perm l1 l2) :
    sortFilesBy le l1 = sortFilesBy le l2 := by
  have hanti' : ∀ a ∈ sortFilesBy le l1, ∀ b ∈ sortFilesBy le l1,
      le a b = true → le b a = true → a = b := by
    intro a hA b hB
    exact hanti a ((sortFilesBy_perm le l1).subset hA) b ((sortFilesBy_perm le l1).subset hB)
  exact sorted_eq_of_perm
    ((sortFilesBy_perm le l1).trans (hp.trans (sortFilesBy_perm le l2).symm))
    (sortFilesBy_pairwise le htotal htrans l1) (sortFilesBy_pairwise le htotal htrans l2) hanti'

/-- The line-51 sort of a file list with distinct, real paths is uniquely
determined by the underlying multiset under code-point collation: any two
enumeration orders sort to the same list. -/
theorem sortFiles_eq_of_perm {l1 l2 : List FileRec} (hnd : (l1.map Prod.fst).Nodup)
    (hv : ∀ fc ∈ l1, validPath fc.1) (hp : List.Perm l1 l2) :
    sortFiles l1 = sortFiles l2 := by
  have hanti : ∀ a ∈ sortFiles l1, ∀ b ∈ sortFiles l1,
      fileLe a b = true → fileLe b a = true → a = b := by
    intro a hA b hB h1 h2
    have ha : a ∈ l1 := (sortFiles_perm l1).subset hA
    have hb : b ∈ l1 := (sortFiles_perm l1).subset hB
    have hkey := fileLe_antisymm_key h1 h2
    have hfst : a.1 = b.1 := normalize_inj (hv a ha) (hv b hb) hkey
    exact List.inj_on_of_nodup_map hnd ha hb hfst
  exact sorted_eq_of_perm ((sortFiles_perm l1).trans (hp.trans (sortFiles_perm l2).symm))
    (sortFiles_pairwise l1) (sortFiles_pairwise l2) hanti

/-! ## Concrete runs used by the witnesses -/

/-- A checkout in which all four input roots exist: the manifest and
lockfile as files, the two source roots as one-file directories. -/
def sampleFs : FSEntry := .dir
  [(asciiBytes "package.json", .file (asciiBytes "\x7b\x7d")),
   (asciiBytes "pnpm-lock.yaml", .file (asciiBytes "l")),
   (asciiBytes "vendor", .dir [(asciiBytes "a2ui", .dir [(asciiBytes "renderers", .dir
      [(asciiBytes "lit", .dir [(asciiBytes "r.ts", .file (asciiBytes "R"))])])])]),
   (asciiBytes "apps", .dir [(asciiBytes "shared", .dir [(asciiBytes "OpenClawKit", .dir
      [(asciiBytes "Tools", .dir [(asciiBytes "CanvasA2UI", .dir
        [(asciiBytes "app.ts", .file (asciiBytes "S"))])])])])])]

/-- The file list `sampleFs` enumerates, in `inputPaths` order. -/
def sampleFiles : List FileRec :=
  [(packageJsonPath, asciiBytes "\x7b\x7d"), (pnpmLockPath, asciiBytes "l"),
   (a2uiRendererDir ++ [asciiBytes "r.ts"], asciiBytes "R"),
   (a2uiAppDir ++ [asciiBytes "app.ts"], asciiBytes "S")]

/-- A `spawnSync` in which every invocation succeeds. -/
def successSpawn : List Nat → List (List Nat) → SpawnOutcome := fun _ _ => ⟨none, some 0⟩

def sampleWorld : World := ⟨sampleFs, none, asciiBytes "/usr/local/bin/node", false, successSpawn⟩

/-- A run in which every `spawnSync` fails at spawn level (e.g. `pnpm` is
not installed); `String(res.error)` is Node's ENOENT message. -/
def spawnFailMsg : List Nat := asciiBytes "Error: spawnSync pnpm ENOENT"

def spawnFailWorld : World :=
  ⟨sampleFs, none, asciiBytes "/usr/local/bin/node", false, fun _ _ => ⟨some spawnFailMsg, none⟩⟩

/-- A run in which every external tool exits with status 1. -/
def exitOneWorld : World :=
  ⟨sampleFs, none, asciiBytes "/usr/local/bin/node", false, fun _ _ => ⟨none, some 1⟩⟩

/-- A checkout with both source roots but no `package.json` and no
lockfile. -/
def noManifestFs : FSEntry := .dir
  [(asciiBytes "vendor", .dir [(asciiBytes "a2ui", .dir [(asciiBytes "renderers", .dir
      [(asciiBytes "lit", .dir [(asciiBytes "r.ts", .file (asciiBytes "R"))])])])]),
   (asciiBytes "apps", .dir [(asciiBytes "shared", .dir [(asciiBytes "OpenClawKit", .dir
      [(asciiBytes "Tools", .dir [(asciiBytes "CanvasA2UI", .dir
        [(asciiBytes "app.ts", .file (asciiBytes "S"))])])])])])]

def noManifestWorld : World :=
  ⟨noManifestFs, none, asciiBytes "/usr/local/bin/node", false, successSpawn⟩

/-- An empty checkout: no roots at all. -/
def emptyWorld : World := ⟨.dir [], none, asciiBytes "/usr/local/bin/node", false, successSpawn⟩

/-! ## The claims -/

/-- **C1 counterexample.**  The line-51 comparator is locale-sensitive
`localeCompare`, which can compare distinct paths equal: ICU's default
collation completely ignores characters such as U+0001 (in Node,
`"a\u0001".localeCompare("a") === 0`), and 0x01 is a legal file-name
byte.  Under such a collation the claim as stated fails: this File Set of
two distinct, real paths ("a\x01" and "a") has two enumeration orders —
permutations of one another — whose stable sort leaves the tie in
enumeration order, so they feed different byte streams to the hash and
yield different digests.  The digest likewise differs between a process
whose locale ties these paths and one whose locale does not, so it is not
independent of operating system or process. -/
theorem claim1_locale_counterexample :
    (([([[97, 1]], [120]), ([[97]], [121])] : List FileRec).map Prod.fst).Nodup
    ∧ (∀ fc ∈ ([([[97, 1]], [120]), ([[97]], [121])] : List FileRec), validPath fc.1)
    ∧ List.Perm ([([[97, 1]], [120]), ([[97]], [121])] : List FileRec)
        [([[97]], [121]), ([[97, 1]], [120])]
    ∧ hashFilesBy tieFileLe [([[97, 1]], [120]), ([[97]], [121])] ≠
        hashFilesBy tieFileLe [([[97]], [121]), ([[97, 1]], [120])] := by
  refine ⟨by decide, by decide, List.Perm.swap _ _ _, by decide⟩

/-- **C1 (amended).** The digest is a pure function of the sorted file
list, so for every File Set and every process collation that is total,
transitive and ties no two entries of the set, any permutation of the
enumerated file list, fed through the sort and hash steps, yields an
identical digest; in particular, under code-point collation every File Set
of distinct real paths hashes enumeration-order-independently.  Under a
collation that ties two distinct paths of the set, order-independence can
fail (counterexample above). -/
theorem claim1_order_invariance_tie_free :
    (∀ (le : FileRec → FileRec → Bool) (l1 l2 : List FileRec),
        (∀ a b, le a b = true ∨ le b a = true) →
        (∀ a b c, le a b = true → le b c = true → le a c = true) →
        (∀ a ∈ l1, ∀ b ∈ l1, le a b = true → le b a = true → a = b) →
        List.Perm l1 l2 → hashFilesBy le l1 = hashFilesBy le l2)
    ∧ (∀ l1 l2 : List FileRec, (l1.map Prod.fst).Nodup →
        (∀ fc ∈ l1, validPath fc.1) → List.Perm l1 l2 → hashFiles l1 = hashFiles l2) := by
  constructor
  · intro le l1 l2 htotal htrans hanti hp
    unfold hashFilesBy
    rw [sortFilesBy_eq_of_perm le htotal htrans hanti hp]
  · intro l1 l2 hnd hv hp
    unfold hashFiles
    rw [sortFiles_eq_of_perm hnd hv hp]

theorem claim1_order_invariance_tie_free_witness :
    hashFiles [([[97]], [120]), ([[98]], [121])] =
      hashFiles [([[98]], [121]), ([[97]], [120])] :=
  claim1_order_invariance_tie_free.2 _ _ (by decide) (by decide) (List.Perm.swap _ _ _)

/-- **C5.** If either required source root is absent, the run terminates
successfully (exit code 0) as a clean skip: no external process is
invoked, the cache fingerprint file is not written, and (the model's run
result being all that a run mutates) the previously produced output
artifact is left untouched.  No fingerprint is computed: the skip branch
of lines 88–91 returns before `computeHash` is reached. -/
theorem claim5_skip_on_missing_sources (w : World)
    (h : existsFs w.fs a2uiRendererDir = false ∨ existsFs w.fs a2uiAppDir = false) :
    mainRun w = ⟨.skippedMissingSources, [], none⟩ ∧ exitCode (mainRun w) = 0 := by
  have hcond : (!existsFs w.fs a2uiRendererDir || !existsFs w.fs a2uiAppDir) = true := by
    rcases h with h | h <;> simp [h]
  have hm : mainRun w = ⟨.skippedMissingSources, [], none⟩ := by
    unfold mainRun
    rw [hcond]
    rfl
  exact ⟨hm, by rw [hm]; rfl⟩

theorem claim5_skip_on_missing_sources_witness :
    mainRun emptyWorld = ⟨.skippedMissingSources, [], none⟩ ∧ exitCode (mainRun emptyWorld) = 0 :=
  claim5_skip_on_missing_sources emptyWorld (Or.inl rfl)

/-- **C6 counterexample.**  The claim attributes to the line-51 comparator
a total ordering in which no two distinct paths compare equal.  The real
comparator is locale-sensitive `localeCompare`; under a collation that
(like ICU's default) completely ignores U+0001, the two distinct, real
paths "a\x01" and "a" compare equal, and the sorted order of a File Set
containing both is not uniquely determined by its path strings: the stable
sort returns each of the two enumeration orders of the same File Set
unchanged. -/
theorem claim6_locale_counterexample :
    ([[97, 1]] : FPath) ≠ [[97]]
    ∧ validPath ([[97, 1]] : FPath) ∧ validPath ([[97]] : FPath)
    ∧ tieCmp (normalize [[97, 1]]) (normalize [[97]]) = .eq
    ∧ List.Perm ([([[97, 1]], [120]), ([[97]], [121])] : List FileRec)
        [([[97]], [121]), ([[97, 1]], [120])]
    ∧ sortFilesBy tieFileLe [([[97, 1]], [120]), ([[97]], [121])] =
        [([[97, 1]], [120]), ([[97]], [121])]
    ∧ sortFilesBy tieFileLe [([[97]], [121]), ([[97, 1]], [120])] =
        [([[97]], [121]), ([[97, 1]], [120])]
    ∧ ([([[97, 1]], [120]), ([[97]], [121])] : List FileRec) ≠
        [([[97]], [121]), ([[97, 1]], [120])] := by
  refine ⟨by decide, by decide, by decide, by decide, List.Perm.swap _ _ _,
    by decide, by decide, by decide⟩

/-- **C6 (amended).**  Line 51 sorts the enumerated list by normalised
relative path under the process's collation.  The code-point collation
instance is total and transitive, and under it no two distinct real paths
compare equal; for every collation that is total, transitive and ties no
two entries of the File Set, the sorted order is uniquely determined by
the relative path strings.  A locale-sensitive collation may tie distinct
paths, in which case the sorted order additionally depends on enumeration
order (counterexample above). -/
theorem claim6_collation_order :
    (∀ a b : FileRec, fileLe a b = true ∨ fileLe b a = true)
    ∧ (∀ a b c : FileRec, fileLe a b = true → fileLe b c = true → fileLe a c = true)
    ∧ (∀ p q : FPath, validPath p → validPath q →
        cmpBytes (normalize p) (normalize q) = .eq → p = q)
    ∧ (∀ (le : FileRec → FileRec → Bool) (l1 l2 : List FileRec),
        (∀ a b, le a b = true ∨ le b a = true) →
        (∀ a b c, le a b = true → le b c = true → le a c = true) →
        (∀ a ∈ l1, ∀ b ∈ l1, le a b = true → le b a = true → a = b) →
        List.Perm l1 l2 → sortFilesBy le l1 = sortFilesBy le l2)
    ∧ (∀ l1 l2 : List FileRec, (l1.map Prod.fst).Nodup →
        (∀ fc ∈ l1, validPath fc.1) → List.Perm l1 l2 → sortFiles l1 = sortFiles l2) :=
  ⟨fileLe_total,
   fun _ _ _ => fileLe_trans,
   fun _ _ hp hq h => normalize_inj hp hq ((cmpBytes_eq_iff _ _).mp h),
   fun le _ _ htotal htrans hanti hp => sortFilesBy_eq_of_perm le htotal htrans hanti hp,
   fun _ _ hnd hv hp => sortFiles_eq_of_perm hnd hv hp⟩

theorem claim6_collation_order_witness :
    sortFiles [([[97]], [1]), ([[98]], [2])] = sortFiles [([[98]], [2]), ([[97]], [1])] :=
  claim6_collation_order.2.2.2.2 _ _ (by decide) (by decide) (List.Perm.swap _ _ _)

/-- **C8.** `walk` on a root that resolves to a regular file yields exactly
that one file; a root that resolves to an empty directory contributes
nothing. -/
theorem claim8_walk_single_file_and_empty_dir :
    (∀ (fs : FSEntry) (p : FPath) (c : List Nat), lookupFs p fs = some (.file c) →
        walkRootE fs p = .ok [(p, c)])
    ∧ (∀ (fs : FSEntry) (p : FPath), lookupFs p fs = some (.dir []) →
        walkRootE fs p = .ok []) := by
  constructor
  · intro fs p c h
    unfold walkRootE
    rw [h]
    rfl
  · intro fs p h
    unfold walkRootE
    rw [h]
    rfl

theorem claim8_walk_single_file_and_empty_dir_witness :
    walkRootE (FSEntry.dir [([109], .file [65]), ([100], .dir [])]) [[109]] = .ok [([[109]], [65])]
    ∧ walkRootE (FSEntry.dir [([109], .file [65]), ([100], .dir [])]) [[100]] = .ok [] :=
  ⟨claim8_walk_single_file_and_empty_dir.1 _ _ _ rfl,
   claim8_walk_single_file_and_empty_dir.2 _ _ rfl⟩

/-- **C9.** Writing a fingerprint to the cache file and reading it back
yields the identical string: `write` persists the string with a trailing
newline (line 105), `read` trims surrounding whitespace (line 95), so for
every whitespace-free fingerprint `f`, `read (write f) = f`. -/
theorem claim9_cache_round_trip (f : List Nat) (h : ∀ b ∈ f, isWSByte b = false) :
    cacheReadValue (cacheWriteContent f) = f := by
  unfold cacheReadValue cacheWriteContent trimB
  cases f with
  | nil => rfl
  | cons x xs =>
    have hx : isWSByte x = false := h x (List.mem_cons_self x xs)
    have h1 : ((x :: xs) ++ [10]).dropWhile isWSByte = x :: (xs ++ [10]) := by
      simp [List.dropWhile_cons, hx]
    rw [h1, List.reverse_cons, List.reverse_append]
    have h2 : (([10].reverse ++ xs.reverse) ++ [x]).dropWhile isWSByte = xs.reverse ++ [x] := by
      have hall : ∀ b ∈ xs.reverse ++ [x], isWSByte b = false := by
        intro b hb
        rcases List.mem_append.mp hb with hb | hb
        · exact h b (List.mem_cons_of_mem x (List.mem_reverse.mp hb))
        · rcases List.mem_singleton.mp hb with rfl
          exact hx
      simp only [List.reverse_singleton, List.singleton_append, List.cons_append,
        List.dropWhile_cons]
      norm_num
      exact dropWhile_all_false hall
    rw [h2, List.reverse_append, List.reverse_reverse]
    rfl

theorem claim9_cache_round_trip_witness :
    cacheReadValue (cacheWriteContent (asciiBytes "0a1b2c")) = asciiBytes "0a1b2c" :=
  claim9_cache_round_trip _ (by decide)

/-- The spec's description of the Fingerprint (§4.4 steps 3–6, §8
end-to-end example): the lowercase hex SHA-256 digest of the
concatenation, over files in sorted order, of
normalised relative path ++ 0x00 ++ raw contents ++ 0x00. -/
def specFingerprint (files : List FileRec) : List Nat :=
  sha256hex (((sortFiles files).map (fun fc => normalize fc.1 ++ [0] ++ fc.2 ++ [0])).flatten)

/-- **C2.** For every enumerated File Set the fingerprint equals the
lowercase hexadecimal SHA-256 digest of the concatenation, over files in
sorted order, of (normalised relative path ++ 0x00 ++ bytes ++ 0x00): the
source's incremental `hash.update` loop produces exactly the spec's
concatenation.  In particular, for the File Set
{("d/x", "B"), ("m", "A")} the digest is
H("d/x" ++ 0x00 ++ "B" ++ 0x00 ++ "m" ++ 0x00 ++ "A" ++ 0x00) — sorted
order puts "d/x" before "m" — and every digest byte is a lowercase hex
character. -/
theorem claim2_digest_structure :
    (∀ (fs : FSEntry) (files : List FileRec), enumerateE fs = .ok files →
        computeHashE fs = .ok (specFingerprint files))
    ∧ hashFiles [([asciiBytes "m"], asciiBytes "A"), ([asciiBytes "d", asciiBytes "x"], asciiBytes "B")]
        = sha256hex [100, 47, 120, 0, 66, 0, 109, 0, 65, 0]
    ∧ (∀ msg : List Nat, ∀ b ∈ sha256hex msg, b ∈ hexDigits) := by
  refine ⟨?_, ?_, sha256hex_mem_hexDigits⟩
  · intro fs files h
    unfold computeHashE
    rw [h]
    show Except.ok (hashFiles files) = _
    unfold hashFiles specFingerprint
    rw [hashUpdates_eq_flatten]
  · unfold hashFiles
    exact congrArg sha256hex (by decide)

theorem claim2_digest_structure_witness :
    computeHashE sampleFs = .ok (specFingerprint sampleFiles) ∧ (101 : Nat) ∈ hexDigits :=
  ⟨claim2_digest_structure.1 sampleFs sampleFiles rfl,
   claim2_digest_structure.2.2 [] 101 (by decide)⟩

/-- **C3.** Given that both required source roots exist (and, as lines
92–98 presuppose, the fingerprint computation succeeds and the cache
location is not a directory), the pipeline is invoked if and only if it is
not the case that the stored fingerprint equals the fresh one and the
output artifact exists.  When stored = current and the artifact exists,
the run ends as a successful skip invoking no external process and
writing nothing; otherwise stage 1 is invoked and — per the failure
contract, provided stage 1 succeeds — stage 2 as well. -/
theorem claim3_rebuild_decision (w : World) (cur : List Nat)
    (hr : existsFs w.fs a2uiRendererDir = true) (ha : existsFs w.fs a2uiAppDir = true)
    (hc : computeHashE w.fs = .ok cur)
    (hcache : ∀ es, lookupFs hashFilePath w.fs ≠ some (.dir es)) :
    ((mainRun w).invoked ≠ [] ↔ ¬ upToDate w cur)
    ∧ (upToDate w cur → mainRun w = ⟨.skippedUpToDate, [], none⟩ ∧ exitCode (mainRun w) = 0)
    ∧ (¬ upToDate w cur → stage1Args ∈ (mainRun w).invoked ∧
        (runPnpm w stage1Args = .ok () → (mainRun w).invoked = [stage1Args, stage2Args])) := by
  by_cases hu : upToDate w cur
  · have hm := mainRun_skip hr ha hc hu
    refine ⟨?_, fun _ => ⟨hm, by rw [hm]; rfl⟩, fun h => absurd hu h⟩
    rw [hm]
    simp [hu]
  · have hm := mainRun_noskip hr ha hc hcache hu
    have hinv : stage1Args ∈ (mainRun w).invoked ∧
        (runPnpm w stage1Args = .ok () → (mainRun w).invoked = [stage1Args, stage2Args]) := by
      rw [hm]
      cases h1 : runPnpm w stage1Args with
      | error f =>
          exact ⟨by simp, fun hok => absurd hok (by simp)⟩
      | ok u =>
          cases u
          cases h2 : runPnpm w stage2Args with
          | error f => exact ⟨by simp, fun _ => rfl⟩
          | ok v => exact ⟨by simp, fun _ => rfl⟩
    exact ⟨⟨fun _ => hu, fun _ => List.ne_nil_of_mem hinv.1⟩, fun h => absurd h hu,
      fun _ => hinv⟩

theorem claim3_rebuild_decision_witness :
    (mainRun sampleWorld).invoked = [stage1Args, stage2Args] := by
  have hcache : ∀ es, lookupFs hashFilePath sampleWorld.fs ≠ some (.dir es) := by
    intro es hE
    rw [show lookupFs hashFilePath sampleWorld.fs = none from rfl] at hE
    exact Option.noConfusion hE
  have hu : ¬ upToDate sampleWorld (hashFiles sampleFiles) := by
    rintro ⟨⟨raw, hL, -⟩, -⟩
    rw [show lookupFs hashFilePath sampleWorld.fs = none from rfl] at hL
    exact Option.noConfusion hL
  exact ((claim3_rebuild_decision sampleWorld (hashFiles sampleFiles)
    rfl rfl rfl hcache).2.2 hu).2 rfl

/-- **C4 counterexample.**  The claim's diagnostic clause does not hold for
a spawn-level failure: when `spawnSync` itself fails (here: `pnpm` not
installed, ENOENT), the run aborts with exit code 1 after stage 1 and
writes no cache record, but the printed `String(err)` is the underlying
system error, which names neither the stage's argument list nor even the
tool name "tsc". -/
theorem claim4_counterexample :
    mainRun spawnFailWorld = ⟨.failed (.spawnError spawnFailMsg), [stage1Args], none⟩
    ∧ exitCode (mainRun spawnFailWorld) = 1
    ∧ isInfixB (List.intercalate (asciiBytes " ") stage1Args)
        (diagnostic (.spawnError spawnFailMsg)) = false
    ∧ isInfixB (asciiBytes "tsc") (diagnostic (.spawnError spawnFailMsg)) = false := by
  refine ⟨by decide, by decide, by decide, by decide⟩

/-- **C4 (amended).** If either pipeline stage fails — spawn error or
nonzero exit — the run aborts immediately: the later stage is never
started, the cache fingerprint file is not written, and the process exits
with code 1.  When the failure is a nonzero exit status, the printed
diagnostic names the failed invocation's arguments; for a spawn-level
failure the diagnostic is the underlying system error instead. -/
theorem claim4_fail_fast_no_cache_write (w : World) (cur : List Nat) (f : Failure)
    (hr : existsFs w.fs a2uiRendererDir = true) (ha : existsFs w.fs a2uiAppDir = true)
    (hc : computeHashE w.fs = .ok cur)
    (hcache : ∀ es, lookupFs hashFilePath w.fs ≠ some (.dir es))
    (hu : ¬ upToDate w cur) :
    (runPnpm w stage1Args = .error f →
        mainRun w = ⟨.failed f, [stage1Args], none⟩ ∧ exitCode (mainRun w) = 1)
    ∧ (runPnpm w stage1Args = .ok () → runPnpm w stage2Args = .error f →
        mainRun w = ⟨.failed f, [stage1Args, stage2Args], none⟩ ∧ exitCode (mainRun w) = 1)
    ∧ (∀ (args : List (List Nat)) (m : List Nat), runPnpm w args = .error (.commandFailed m) →
        isInfixB (List.intercalate (asciiBytes " ") args)
          (diagnostic (.commandFailed m)) = true) := by
  have hm := mainRun_noskip hr ha hc hcache hu
  refine ⟨?_, ?_, ?_⟩
  · intro h1
    rw [hm, h1]
    exact ⟨rfl, rfl⟩
  · intro h1 h2
    rw [hm, h1, h2]
    exact ⟨rfl, rfl⟩
  · intro args m hrun
    have hmsg : cmdFailedMsg args = m := by
      simp only [runPnpm] at hrun
      split at hrun
      · exact absurd hrun (by simp)
      · split at hrun
        · exact absurd hrun (by simp)
        · injection hrun with h1
          injection h1 with h2
    rw [← hmsg]
    show isInfixB _ (asciiBytes "Error: " ++ (asciiBytes "Command failed: pnpm " ++ _)) = true
    rw [← List.append_assoc]
    exact isInfixB_suffix _ _

theorem claim4_fail_fast_no_cache_write_witness :
    mainRun exitOneWorld = ⟨.failed (.commandFailed (cmdFailedMsg stage1Args)), [stage1Args], none⟩
    ∧ exitCode (mainRun exitOneWorld) = 1 := by
  have hcache : ∀ es, lookupFs hashFilePath exitOneWorld.fs ≠ some (.dir es) := by
    intro es hE
    rw [show lookupFs hashFilePath exitOneWorld.fs = none from rfl] at hE
    exact Option.noConfusion hE
  have hu : ¬ upToDate exitOneWorld (hashFiles sampleFiles) := by
    rintro ⟨⟨raw, hL, -⟩, -⟩
    rw [show lookupFs hashFilePath exitOneWorld.fs = none from rfl] at hL
    exact Option.noConfusion hL
  exact (claim4_fail_fast_no_cache_write exitOneWorld (hashFiles sampleFiles)
    (.commandFailed (cmdFailedMsg stage1Args)) rfl rfl rfl hcache hu).1 rfl

/-- **C7 counterexample.**  The pre-hash encoding is not injective on all
File Sets: raw file contents may themselves contain the 0x00 separator
byte.  The one-file set {("p", "c\x00q\x00d")} and the two-file set
{("p", "c"), ("q", "d")} are different File Sets — with perfectly valid
paths — yet the byte sequences fed to the hash are identical. -/
theorem claim7_counterexample :
    hashUpdates (sortFiles [([[112]], [99, 0, 113, 0, 100])]) =
      hashUpdates (sortFiles [([[112]], [99]), ([[113]], [100])])
    ∧ ¬ List.Perm ([([[112]], [99, 0, 113, 0, 100])] : List FileRec)
        [([[112]], [99]), ([[113]], [100])]
    ∧ (∀ fc ∈ ([([[112]], [99, 0, 113, 0, 100])] : List FileRec), validPath fc.1)
    ∧ (∀ fc ∈ ([([[112]], [99]), ([[113]], [100])] : List FileRec), validPath fc.1) := by
  refine ⟨by decide, ?_, by decide, by decide⟩
  intro h
  exact absurd h.length_eq (by decide)

/-- **C7 (amended).** The 0x00 separator is distinct from every legitimate
path byte; provided the file *contents* are also NUL-free, the pre-hash
encoding is injective: two File Sets feeding identical byte sequences to
the hash are the same File Set.  (When contents may contain 0x00, distinct
File Sets can collide, as the counterexample shows.) -/
theorem claim7_encoding_injective_on_nul_free (l1 l2 : List FileRec)
    (h1 : ∀ fc ∈ l1, validPath fc.1 ∧ 0 ∉ fc.2)
    (h2 : ∀ fc ∈ l2, validPath fc.1 ∧ 0 ∉ fc.2)
    (h : hashUpdates (sortFiles l1) = hashUpdates (sortFiles l2)) :
    List.Perm l1 l2 := by
  rw [hashUpdates_eq_flatten, hashUpdates_eq_flatten, flatten_blocks_eq_sepChunks,
    flatten_blocks_eq_sepChunks] at h
  have h1s : ∀ fc ∈ sortFiles l1, validPath fc.1 ∧ 0 ∉ fc.2 :=
    fun fc hfc => h1 fc ((sortFiles_perm l1).subset hfc)
  have h2s : ∀ fc ∈ sortFiles l2, validPath fc.1 ∧ 0 ∉ fc.2 :=
    fun fc hfc => h2 fc ((sortFiles_perm l2).subset hfc)
  have hzero : ∀ (l : List FileRec), (∀ fc ∈ l, validPath fc.1 ∧ 0 ∉ fc.2) →
      ∀ c ∈ fileChunks l, 0 ∉ c := by
    intro l hl c hc
    obtain ⟨x, hx, hcx⟩ := List.mem_flatten.mp hc
    obtain ⟨fc, hfc, rfl⟩ := List.mem_map.mp hx
    rcases List.mem_cons.mp hcx with rfl | hcx'
    · exact normalize_zero_free (hl fc hfc).1
    · rcases List.mem_singleton.mp hcx' with rfl
      exact (hl fc hfc).2
  have hchunks := sepChunks_inj (hzero _ h1s) (hzero _ h2s) h
  have hsorted := fileChunks_inj (fun fc hfc => (h1s fc hfc).1)
    (fun fc hfc => (h2s fc hfc).1) hchunks
  exact (sortFiles_perm l1).symm.trans (by rw [hsorted]; exact sortFiles_perm l2)

theorem claim7_encoding_injective_on_nul_free_witness :
    List.Perm ([([[97]], [120]), ([[98]], [121])] : List FileRec)
      [([[98]], [121]), ([[97]], [120])] :=
  claim7_encoding_injective_on_nul_free _ _ (by decide) (by decide) (by decide)

/-- **C10.** Only the two source roots are probed before enumeration; the
manifest and the lockfile are enumerated unconditionally.  If both source
roots exist but `package.json` or `pnpm-lock.yaml` is missing, the run
does not skip cleanly: the `stat` inside enumeration fails, no pipeline
stage is invoked, nothing is written, and the process exits with code 1. -/
theorem claim10_missing_manifest_fatal (w : World)
    (hr : existsFs w.fs a2uiRendererDir = true) (ha : existsFs w.fs a2uiAppDir = true)
    (hmiss : lookupFs packageJsonPath w.fs = none ∨ lookupFs pnpmLockPath w.fs = none) :
    mainRun w = ⟨.failed .statError, [], none⟩ ∧ exitCode (mainRun w) = 1 := by
  have hc : computeHashE w.fs = .error .statError := computeHashE_statError hmiss
  have hm : mainRun w = ⟨.failed .statError, [], none⟩ := by
    unfold mainRun
    rw [hr, ha, hc]
    rfl
  exact ⟨hm, by rw [hm]; rfl⟩

theorem claim10_missing_manifest_fatal_witness :
    mainRun noManifestWorld = ⟨.failed .statError, [], none⟩
    ∧ exitCode (mainRun noManifestWorld) = 1 :=
  claim10_missing_manifest_fatal noManifestWorld rfl rfl (Or.inl rfl)

end A2UI
